import Mathlib

/-!
A verification development for the webwormhole signalling server
(`cmd/ww/server.go`).  The slot table, the `freeslot` allocator, the
booking and joining branches of `relay`, and the relay pump loop are
embedded as pure Lean functions over explicit event inputs:

* the Go map `slots.m : map[string]chan *websocket.Conn` becomes an
  association list `Table`; the critical sections guarded by
  `slots.Lock()` become single atomic operations on `Table`;
* `rand.Intn n` is embedded as `g k % n`, where `g : Nat → Nat` is the
  stream of draws from the process-wide random source and `k` the index
  of the draw;
* `strconv.Itoa` is embedded as `itoa` (decimal digits, most significant
  first);
* the goroutine bodies become functions from their inputs (table state,
  random stream, write outcomes, and the outcome of each `select`) to
  the list of connection/channel operations they perform, in program
  order, together with the resulting table.
-/

namespace WW

/-- Decimal digit character, as in Go's `strconv` (`'0' + d`). -/
def digitChar (d : Nat) : Char := Char.ofNat (48 + d)

/-- Fuel-indexed digit accumulator: pushes the decimal digits of `n`,
least significant first, onto `acc`.  `fuel ≥ n + 1` is always enough. -/
def itoaAux : Nat → Nat → List Char → List Char
  | 0, _, acc => acc
  | fuel + 1, n, acc =>
    if n / 10 = 0 then digitChar (n % 10) :: acc
    else itoaAux fuel (n / 10) (digitChar (n % 10) :: acc)

/-- Embedding of Go's `strconv.Itoa` on the non-negative integers:
the canonical decimal representation, no sign, no leading zeros. -/
def itoa (n : Nat) : String := ⟨itoaAux (n + 1) n []⟩

/-- Close code `CloseNoSuchSlot = 4000 + iota` (server.go line 40). -/
def CloseNoSuchSlot : Nat := 4000

/-- Close code `CloseSlotTimedOut` (server.go line 41). -/
def CloseSlotTimedOut : Nat := 4001

/-- Close code `CloseNoMoreSlots` (server.go line 42). -/
def CloseNoMoreSlots : Nat := 4002

/-- `websocket.TextMessage` message type. -/
def TextMessage : Nat := 1

/-- `websocket.BinaryMessage` message type. -/
def BinaryMessage : Nat := 2

/-- The slot table `slots.m`: an association list from slot code to a
channel identifier (standing for the `chan *websocket.Conn` value). -/
abbrev Table := List (String × Nat)

/-- The key set of the table. -/
def keys (t : Table) : List String := t.map Prod.fst

/-- Map lookup `slots.m[k]`. -/
def lookup : Table → String → Option Nat
  | [], _ => none
  | (k', c) :: rest, k => if k' = k then some c else lookup rest k

/-- Map removal `delete(slots.m, k)`. -/
def eraseKey : Table → String → Table
  | [], _ => []
  | (k', c) :: rest, k =>
    if k' = k then eraseKey rest k else (k', c) :: eraseKey rest k

/-- The joiner's critical section (server.go lines 150-163): under
`slots.Lock()`, look the code up and, when present, delete it.  The
lock makes the lookup and the removal one atomic step. -/
def take (t : Table) (k : String) : Option Nat × Table :=
  match lookup t k with
  | none => (none, t)
  | some c => (some c, eraseKey t k)

/-- One attempt band of `freeslot` (server.go lines 55-81): up to
`budget` draws, each `rand.Intn bound` converted by `strconv.Itoa` and
checked for membership in the key set; `k` indexes the next draw of the
random stream `g`. -/
def tryBand (m : List String) (g : Nat → Nat) (bound : Nat) : Nat → Nat → Option String
  | _, 0 => none
  | k, budget + 1 =>
    if itoa (g k % bound) ∈ m then tryBand m g bound (k + 1) budget
    else some (itoa (g k % bound))

/-- Embedding of `freeslot` (server.go lines 53-84): four escalating
bands, 3 draws from `0..9`, 64 from `0..2^8-1`, 1024 from `0..2^16-1`,
1024 from `0..2^24-1`; the first draw whose decimal string is not a key
of the table is returned, `none` means Go's `ok = false` (`FULL`). -/
def freeslot (m : List String) (g : Nat → Nat) : Option String :=
  match tryBand m g 10 0 3 with
  | some s => some s
  | none =>
    match tryBand m g 256 3 64 with
    | some s => some s
    | none =>
      match tryBand m g 65536 67 1024 with
      | some s => some s
      | none => tryBand m g 16777216 1091 1024

/-- The range `rand.Intn` is called with at draw index `k` of a full
`freeslot` run: band 1 occupies indices `0..2`, band 2 indices `3..66`,
band 3 indices `67..1090`, band 4 indices `1091..2114`. -/
def bandBound (k : Nat) : Nat :=
  if k < 3 then 10 else if k < 67 then 256 else if k < 1091 then 65536
  else 16777216

/-- The decimal string sampled at draw index `k` of a `freeslot` run. -/
def sampleAt (g : Nat → Nat) (k : Nat) : String := itoa (g k % bandBound k)

/-- The UTF-8 bytes `[]byte(s)` of an ASCII slot code. -/
def strBytes (s : String) : List Nat := s.data.map Char.toNat

/-- A connection or channel operation performed by a handler, in
program order. -/
inductive Action where
  | writeMessage (messageType : Nat) (payload : List Nat)
  | writeClose (code : Nat) (reason : String)
  | closeConn
  | chanSend
  | chanRecv
deriving DecidableEq

/-- Outcome of the booker's `select` (server.go lines 130-144): either
the deadline fires first or a joiner receives the booker's connection. -/
inductive BookEvent where
  | deadline
  | joinerArrived
deriving DecidableEq

/-- Outcome of the joiner's `select` (server.go lines 165-174): either
the deadline fires first or the booker's connection arrives. -/
inductive JoinEvent where
  | deadline
  | bookerArrived
deriving DecidableEq

/-- The booking branch of `relay` (server.go lines 106-147), as a
function of the table, the random stream `g`, the fresh channel id `c`,
whether the `WriteMessage` of the code succeeds, and the `select`
outcome.  Returns the operations performed on the connection and the
channel, in program order, and the table at goroutine exit. -/
def bookGoroutine (t : Table) (g : Nat → Nat) (c : Nat) (writeOk : Bool)
    (ev : BookEvent) : List Action × Table :=
  match freeslot (keys t) g with
  | none =>
    ([Action.writeClose CloseNoMoreSlots "cannot allocate slots",
      Action.closeConn], t)
  | some slotkey =>
    if writeOk then
      match ev with
      | BookEvent.deadline =>
        ([Action.writeMessage TextMessage (strBytes slotkey),
          Action.writeClose CloseSlotTimedOut "timed out", Action.closeConn],
         eraseKey ((slotkey, c) :: t) slotkey)
      | BookEvent.joinerArrived =>
        ([Action.writeMessage TextMessage (strBytes slotkey),
          Action.chanSend, Action.chanRecv],
         (slotkey, c) :: t)
    else
      ([Action.writeMessage TextMessage (strBytes slotkey)],
       (slotkey, c) :: t)

/-- The joining branch of `relay` (server.go lines 150-175).  Note that
the `ctx.Done()` arm of the `select` has no `return`: after writing the
close frame and closing the connection, control falls through to the
unconditional `sc <- conn` on line 175, hence the trailing `chanSend`
in the deadline case. -/
def joinGoroutine (t : Table) (slotkey : String) (ev : JoinEvent) :
    List Action × Table :=
  match lookup t slotkey with
  | none =>
    ([Action.writeClose CloseNoSuchSlot "no such slot", Action.closeConn], t)
  | some _ =>
    match ev with
    | JoinEvent.deadline =>
      ([Action.writeClose CloseSlotTimedOut "timed out", Action.closeConn,
        Action.chanSend],
       eraseKey t slotkey)
    | JoinEvent.bookerArrived =>
      ([Action.chanRecv, Action.chanSend], eraseKey t slotkey)

/-- Result of one `conn.ReadMessage()` call. -/
inductive ReadResult where
  | frame (messageType : Nat) (payload : List Nat)
  | err
deriving DecidableEq

/-- An event offered to the main `relay` loop: either the 30-minute
context deadline fires, or a read completes (`writeOk` is the outcome
of the forwarding `rconn.WriteMessage`, when one is attempted). -/
inductive PumpIn where
  | deadlineFired
  | read (r : ReadResult) (writeOk : Bool)
deriving DecidableEq

/-- Whether an event is the deadline expiry. -/
def isDeadlineEv : PumpIn → Bool
  | PumpIn.deadlineFired => true
  | PumpIn.read _ _ => false

/-- The main loop of `relay` (server.go lines 179-194), which doubles
as the per-direction relay pump once paired.  `paired` is whether
`rconn` has been assigned.  The loop's only suspension points are
`conn.ReadMessage` and `rconn.WriteMessage`; it does not select on
`ctx.Done()`, so a deadline event leaves it unchanged.  It returns on
read error, on a frame arriving while `rconn == nil`, and on write
error; otherwise it forwards the frame with the same message type and
payload. -/
def pumpActions (paired : Bool) : List PumpIn → List Action
  | [] => []
  | PumpIn.deadlineFired :: rest => pumpActions paired rest
  | PumpIn.read ReadResult.err _ :: _ => []
  | PumpIn.read (ReadResult.frame mt p) writeOk :: rest =>
    if paired then
      Action.writeMessage mt p :: (if writeOk then pumpActions paired rest else [])
    else []

/-- The close frames among a list of actions, as (code, reason) pairs. -/
def closeFrames (acts : List Action) : List (Nat × String) :=
  acts.filterMap fun a =>
    match a with
    | Action.writeClose c r => some (c, r)
    | _ => none

/-- A sequence of joiner critical sections (`take`), serialised by the
table lock, recording for each the attempted code and whether the code
was observed present. -/
def runTakes : Table → List String → List (String × Bool)
  | _, [] => []
  | t, k :: ks => (k, (take t k).1.isSome) :: runTakes (take t k).2 ks

/-- How many attempts against code `K` observed it present. -/
def successesFor (K : String) : List (String × Bool) → Nat
  | [] => 0
  | (k, b) :: rest =>
    (if k = K ∧ b = true then 1 else 0) + successesFor K rest

/-- The ways the slot table is mutated in `relay`: a booking insert of
a `freeslot` result (lines 109-122), a joiner's `take` (lines 150-163),
and the booking-timeout delete (lines 133-135). -/
inductive TableStep : Table → Table → Prop where
  | book (t : Table) (g : Nat → Nat) (c : Nat) (k : String)
      (h : freeslot (keys t) g = some k) : TableStep t ((k, c) :: t)
  | takeStep (t : Table) (k : String) : TableStep t (take t k).2
  | dropStep (t : Table) (k : String) : TableStep t (eraseKey t k)

/-- Tables reachable from the initial empty `slots.m` by the server's
own operations. -/
inductive Reachable : Table → Prop where
  | init : Reachable []
  | step {t t' : Table} : Reachable t → TableStep t t' → Reachable t'

/-! Properties of the decimal printer. -/

theorem itoaAux_append (fuel : Nat) :
    ∀ n acc, itoaAux fuel n acc = itoaAux fuel n [] ++ acc := by
  induction fuel with
  | zero => intro n acc; simp [itoaAux]
  | succ f ih =>
    intro n acc
    by_cases h : n / 10 = 0
    · simp [itoaAux, h]
    · simp only [itoaAux, if_neg h]
      rw [ih (n / 10) (digitChar (n % 10) :: acc),
        ih (n / 10) [digitChar (n % 10)]]
      simp

theorem itoaAux_head (fuel : Nat) :
    ∀ n, 1 ≤ n → n < fuel →
      ∃ d l, itoaAux fuel n [] = digitChar d :: l ∧ 1 ≤ d ∧ d ≤ 9 := by
  induction fuel with
  | zero => intro n h1 h2; omega
  | succ f ih =>
    intro n h1 h2
    by_cases h : n / 10 = 0
    · refine ⟨n % 10, [], ?_, ?_, ?_⟩
      · simp [itoaAux, h]
      · omega
      · omega
    · have hn10 : 1 ≤ n / 10 := by omega
      have hlt : n / 10 < f := by omega
      obtain ⟨d, l, hd, h1d, h9d⟩ := ih (n / 10) hn10 hlt
      refine ⟨d, l ++ [digitChar (n % 10)], ?_, h1d, h9d⟩
      simp only [itoaAux, if_neg h]
      rw [itoaAux_append f (n / 10) [digitChar (n % 10)], hd]
      simp

theorem itoa_ne_007 (n : Nat) : itoa n ≠ "007" := by
  rcases Nat.eq_zero_or_pos n with h0 | h1
  · subst h0; decide
  · intro hcontra
    obtain ⟨d, l, hd, h1d, h9d⟩ := itoaAux_head (n + 1) n h1 (Nat.lt_succ_self n)
    have hdata : itoaAux (n + 1) n [] = "007".data := congrArg String.data hcontra
    rw [hd] at hdata
    have h007 : "007".data = ['0', '0', '7'] := rfl
    rw [h007] at hdata
    have hhead : digitChar d = '0' := (List.cons.injEq _ _ _ _ ▸ hdata).1
    interval_cases d <;> exact absurd hhead (by decide)

/-! Properties of the allocator. -/

theorem tryBand_none_iff (m : List String) (g : Nat → Nat) (bound : Nat) :
    ∀ budget k, tryBand m g bound k budget = none ↔
      ∀ j, k ≤ j → j < k + budget → itoa (g j % bound) ∈ m := by
  intro budget
  induction budget with
  | zero =>
    intro k
    constructor
    · intro _ j h1 h2; omega
    · intro _; rfl
  | succ b ih =>
    intro k
    simp only [tryBand]
    by_cases h : itoa (g k % bound) ∈ m
    · rw [if_pos h, ih (k + 1)]
      constructor
      · intro hall j h1 h2
        rcases Nat.eq_or_lt_of_le h1 with rfl | hlt
        · exact h
        · exact hall j hlt (by omega)
      · intro hall j h1 h2
        exact hall j (by omega) (by omega)
    · rw [if_neg h]
      constructor
      · intro hsome; cases hsome
      · intro hall
        exact absurd (hall k (le_refl k) (by omega)) h

theorem tryBand_some (m : List String) (g : Nat → Nat) (bound : Nat) :
    ∀ budget k s, tryBand m g bound k budget = some s →
      ∃ j, k ≤ j ∧ j < k + budget ∧ s = itoa (g j % bound) ∧ s ∉ m ∧
        ∀ i, k ≤ i → i < j → itoa (g i % bound) ∈ m := by
  intro budget
  induction budget with
  | zero => intro k s h; simp [tryBand] at h
  | succ b ih =>
    intro k s h
    simp only [tryBand] at h
    by_cases hm : itoa (g k % bound) ∈ m
    · rw [if_pos hm] at h
      obtain ⟨j, hk, hlt, hs, hnm, hprior⟩ := ih (k + 1) s h
      refine ⟨j, by omega, by omega, hs, hnm, ?_⟩
      intro i h1 h2
      rcases Nat.eq_or_lt_of_le h1 with rfl | hlt2
      · exact hm
      · exact hprior i hlt2 h2
    · rw [if_neg hm] at h
      have hs : itoa (g k % bound) = s := by injection h
      refine ⟨k, le_refl k, by omega, hs.symm, hs ▸ hm, ?_⟩
      intro i h1 h2; omega

theorem bandBound_eq1 (k : Nat) (h : k < 3) : bandBound k = 10 := by
  simp [bandBound, h]

theorem bandBound_eq2 (k : Nat) (h1 : 3 ≤ k) (h2 : k < 67) : bandBound k = 256 := by
  simp only [bandBound]
  rw [if_neg (by omega), if_pos h2]

theorem bandBound_eq3 (k : Nat) (h1 : 67 ≤ k) (h2 : k < 1091) :
    bandBound k = 65536 := by
  simp only [bandBound]
  rw [if_neg (by omega), if_neg (by omega), if_pos h2]

theorem bandBound_eq4 (k : Nat) (h1 : 1091 ≤ k) : bandBound k = 16777216 := by
  simp only [bandBound]
  rw [if_neg (by omega), if_neg (by omega), if_neg (by omega)]

theorem bandBound_pos (k : Nat) : 0 < bandBound k := by
  simp only [bandBound]
  split <;> [omega; split <;> [omega; split <;> omega]]

theorem bandBound_le (k : Nat) : bandBound k ≤ 16777216 := by
  simp only [bandBound]
  split <;> [omega; split <;> [omega; split <;> omega]]

theorem sampleAt_eq (g : Nat → Nat) (k : Nat) :
    sampleAt g k = itoa (g k % bandBound k) := rfl

theorem freeslot_bands_none (m : List String) (g : Nat → Nat)
    (h : freeslot m g = none) :
    tryBand m g 10 0 3 = none ∧ tryBand m g 256 3 64 = none ∧
      tryBand m g 65536 67 1024 = none ∧
      tryBand m g 16777216 1091 1024 = none := by
  unfold freeslot at h
  cases h1 : tryBand m g 10 0 3 with
  | some s => rw [h1] at h; simp at h
  | none =>
    rw [h1] at h
    cases h2 : tryBand m g 256 3 64 with
    | some s => rw [h2] at h; simp at h
    | none =>
      rw [h2] at h
      cases h3 : tryBand m g 65536 67 1024 with
      | some s => rw [h3] at h; simp at h
      | none =>
        rw [h3] at h
        exact ⟨rfl, rfl, rfl, h⟩

theorem freeslot_none_of_bands (m : List String) (g : Nat → Nat)
    (h1 : tryBand m g 10 0 3 = none) (h2 : tryBand m g 256 3 64 = none)
    (h3 : tryBand m g 65536 67 1024 = none)
    (h4 : tryBand m g 16777216 1091 1024 = none) : freeslot m g = none := by
  unfold freeslot
  rw [h1, h2, h3, h4]

theorem freeslot_none_iff (m : List String) (g : Nat → Nat) :
    freeslot m g = none ↔ ∀ k, k < 2115 → sampleAt g k ∈ m := by
  constructor
  · intro h k hk
    obtain ⟨h1, h2, h3, h4⟩ := freeslot_bands_none m g h
    have c1 := (tryBand_none_iff m g 10 3 0).mp h1
    have c2 := (tryBand_none_iff m g 256 64 3).mp h2
    have c3 := (tryBand_none_iff m g 65536 1024 67).mp h3
    have c4 := (tryBand_none_iff m g 16777216 1024 1091).mp h4
    by_cases hb1 : k < 3
    · rw [sampleAt_eq, bandBound_eq1 k hb1]
      exact c1 k (by omega) (by omega)
    · by_cases hb2 : k < 67
      · rw [sampleAt_eq, bandBound_eq2 k (by omega) hb2]
        exact c2 k (by omega) (by omega)
      · by_cases hb3 : k < 1091
        · rw [sampleAt_eq, bandBound_eq3 k (by omega) hb3]
          exact c3 k (by omega) (by omega)
        · rw [sampleAt_eq, bandBound_eq4 k (by omega)]
          exact c4 k (by omega) (by omega)
  · intro hall
    apply freeslot_none_of_bands
    · rw [tryBand_none_iff]
      intro j hj1 hj2
      have hm := hall j (by omega)
      rwa [sampleAt_eq, bandBound_eq1 j (by omega)] at hm
    · rw [tryBand_none_iff]
      intro j hj1 hj2
      have hm := hall j (by omega)
      rwa [sampleAt_eq, bandBound_eq2 j (by omega) (by omega)] at hm
    · rw [tryBand_none_iff]
      intro j hj1 hj2
      have hm := hall j (by omega)
      rwa [sampleAt_eq, bandBound_eq3 j (by omega) (by omega)] at hm
    · rw [tryBand_none_iff]
      intro j hj1 hj2
      have hm := hall j (by omega)
      rwa [sampleAt_eq, bandBound_eq4 j (by omega)] at hm

theorem freeslot_some_sample (m : List String) (g : Nat → Nat) (s : String)
    (h : freeslot m g = some s) :
    s ∉ m ∧ ∃ k, k < 2115 ∧ s = sampleAt g k ∧ ∀ j, j < k → sampleAt g j ∈ m := by
  unfold freeslot at h
  cases h1 : tryBand m g 10 0 3 with
  | some s1 =>
    rw [h1] at h
    simp only [Option.some.injEq] at h
    subst h
    obtain ⟨j, hk, hlt, hs, hnm, hprior⟩ := tryBand_some m g 10 3 0 s1 h1
    refine ⟨hnm, j, by omega, ?_, ?_⟩
    · rw [sampleAt_eq, bandBound_eq1 j (by omega)]; exact hs
    · intro i hi
      rw [sampleAt_eq, bandBound_eq1 i (by omega)]
      exact hprior i (by omega) hi
  | none =>
    rw [h1] at h
    have c1 := (tryBand_none_iff m g 10 3 0).mp h1
    cases h2 : tryBand m g 256 3 64 with
    | some s2 =>
      rw [h2] at h
      simp only [Option.some.injEq] at h
      subst h
      obtain ⟨j, hk, hlt, hs, hnm, hprior⟩ := tryBand_some m g 256 64 3 s2 h2
      refine ⟨hnm, j, by omega, ?_, ?_⟩
      · rw [sampleAt_eq, bandBound_eq2 j (by omega) (by omega)]; exact hs
      · intro i hi
        by_cases hib : i < 3
        · rw [sampleAt_eq, bandBound_eq1 i hib]
          exact c1 i (by omega) (by omega)
        · rw [sampleAt_eq, bandBound_eq2 i (by omega) (by omega)]
          exact hprior i (by omega) hi
    | none =>
      rw [h2] at h
      have c2 := (tryBand_none_iff m g 256 64 3).mp h2
      cases h3 : tryBand m g 65536 67 1024 with
      | some s3 =>
        rw [h3] at h
        simp only [Option.some.injEq] at h
        subst h
        obtain ⟨j, hk, hlt, hs, hnm, hprior⟩ := tryBand_some m g 65536 1024 67 s3 h3
        refine ⟨hnm, j, by omega, ?_, ?_⟩
        · rw [sampleAt_eq, bandBound_eq3 j (by omega) (by omega)]; exact hs
        · intro i hi
          by_cases hib : i < 3
          · rw [sampleAt_eq, bandBound_eq1 i hib]
            exact c1 i (by omega) (by omega)
          · by_cases hib2 : i < 67
            · rw [sampleAt_eq, bandBound_eq2 i (by omega) hib2]
              exact c2 i (by omega) (by omega)
            · rw [sampleAt_eq, bandBound_eq3 i (by omega) (by omega)]
              exact hprior i (by omega) hi
      | none =>
        rw [h3] at h
        have c3 := (tryBand_none_iff m g 65536 1024 67).mp h3
        obtain ⟨j, hk, hlt, hs, hnm, hprior⟩ := tryBand_some m g 16777216 1024 1091 s h
        refine ⟨hnm, j, by omega, ?_, ?_⟩
        · rw [sampleAt_eq, bandBound_eq4 j (by omega)]; exact hs
        · intro i hi
          by_cases hib : i < 3
          · rw [sampleAt_eq, bandBound_eq1 i hib]
            exact c1 i (by omega) (by omega)
          · by_cases hib2 : i < 67
            · rw [sampleAt_eq, bandBound_eq2 i (by omega) hib2]
              exact c2 i (by omega) (by omega)
            · by_cases hib3 : i < 1091
              · rw [sampleAt_eq, bandBound_eq3 i (by omega) hib3]
                exact c3 i (by omega) (by omega)
              · rw [sampleAt_eq, bandBound_eq4 i (by omega)]
                exact hprior i (by omega) hi

theorem freeslot_canonical (m : List String) (g : Nat → Nat) (s : String)
    (h : freeslot m g = some s) : ∃ n, n < 2 ^ 24 ∧ s = itoa n := by
  obtain ⟨-, k, hk, hs, -⟩ := freeslot_some_sample m g s h
  refine ⟨g k % bandBound k, ?_, by rwa [sampleAt_eq] at hs⟩
  have hmod : g k % bandBound k < bandBound k := Nat.mod_lt _ (bandBound_pos k)
  have hle := bandBound_le k
  have hpow : (16777216 : Nat) = 2 ^ 24 := by norm_num
  omega

/-! Properties of the slot table. -/

theorem take_none (t : Table) (k : String) (h : lookup t k = none) :
    take t k = (none, t) := by
  unfold take
  rw [h]

theorem take_some (t : Table) (k : String) (c : Nat)
    (h : lookup t k = some c) : take t k = (some c, eraseKey t k) := by
  unfold take
  rw [h]

theorem runTakes_cons (t : Table) (k : String) (ks : List String) :
    runTakes t (k :: ks) =
      (k, (take t k).1.isSome) :: runTakes (take t k).2 ks := rfl

theorem successesFor_cons (K k : String) (b : Bool) (l : List (String × Bool)) :
    successesFor K ((k, b) :: l) =
      (if k = K ∧ b = true then 1 else 0) + successesFor K l := rfl

theorem lookup_eraseKey (t : Table) (j k : String) :
    lookup (eraseKey t j) k = if j = k then none else lookup t k := by
  induction t with
  | nil => simp [eraseKey, lookup]
  | cons p rest ih =>
    obtain ⟨k', c⟩ := p
    rw [eraseKey]
    by_cases hj : k' = j
    · rw [if_pos hj, ih]
      by_cases hjk : j = k
      · rw [if_pos hjk, if_pos hjk]
      · rw [if_neg hjk, if_neg hjk, lookup,
          if_neg (fun hh => hjk (hj.symm.trans hh))]
    · rw [if_neg hj, lookup]
      by_cases hk : k' = k
      · rw [if_pos hk, if_neg (fun hh => hj (hk.trans hh.symm)), lookup,
          if_pos hk]
      · by_cases hjk : j = k
        · rw [if_neg hk, ih, if_pos hjk, if_pos hjk]
        · rw [if_neg hk, ih, if_neg hjk, if_neg hjk, lookup, if_neg hk]

theorem lookup_mem (t : Table) (k : String) (c : Nat)
    (h : lookup t k = some c) : (k, c) ∈ t := by
  induction t with
  | nil => cases h
  | cons p rest ih =>
    obtain ⟨k', c'⟩ := p
    rw [lookup] at h
    by_cases hk : k' = k
    · rw [if_pos hk] at h
      subst hk
      have : c' = c := by injection h
      subst this
      exact List.mem_cons_self _ _
    · rw [if_neg hk] at h
      exact List.mem_cons_of_mem _ (ih h)

theorem mem_eraseKey (t : Table) (j : String) (p : String × Nat)
    (h : p ∈ eraseKey t j) : p ∈ t := by
  induction t with
  | nil => cases h
  | cons q rest ih =>
    obtain ⟨k', c'⟩ := q
    rw [eraseKey] at h
    by_cases hj : k' = j
    · rw [if_pos hj] at h
      exact List.mem_cons_of_mem _ (ih h)
    · rw [if_neg hj] at h
      rcases List.mem_cons.mp h with rfl | hmem
      · exact List.mem_cons_self _ _
      · exact List.mem_cons_of_mem _ (ih hmem)

theorem mem_take_snd (t : Table) (k : String) (p : String × Nat)
    (h : p ∈ (take t k).2) : p ∈ t := by
  rw [take] at h
  cases hl : lookup t k with
  | none => rw [hl] at h; exact h
  | some c => rw [hl] at h; exact mem_eraseKey t k p h

theorem reachable_keys_canonical (t : Table) (h : Reachable t) :
    ∀ p, p ∈ t → ∃ n, n < 2 ^ 24 ∧ p.1 = itoa n := by
  induction h with
  | init => intro p hp; cases hp
  | @step t0 t1 hr hs ih =>
    intro p hp
    cases hs with
    | book g c k hfs =>
      rcases List.mem_cons.mp hp with rfl | hmem
      · exact freeslot_canonical (keys t0) g k hfs
      · exact ih p hmem
    | takeStep k => exact ih p (mem_take_snd t0 k p hp)
    | dropStep k => exact ih p (mem_eraseKey t0 k p hp)

/-! Linearisation of join attempts. -/

theorem successesFor_eq_zero (K : String) :
    ∀ ks t, lookup t K = none → successesFor K (runTakes t ks) = 0 := by
  intro ks
  induction ks with
  | nil => intro t h; rfl
  | cons k ks ih =>
    intro t h
    rw [runTakes_cons]
    cases hl : lookup t k with
    | none =>
      rw [take_none t k hl, successesFor_cons, if_neg (by simp), ih t h]
    | some c =>
      have hkK : k ≠ K := by
        intro hh; subst hh; rw [h] at hl; cases hl
      have hz : lookup (eraseKey t k) K = none := by
        rw [lookup_eraseKey, if_neg hkK, h]
      rw [take_some t k c hl, successesFor_cons, if_neg (by simp [hkK]),
        ih (eraseKey t k) hz]

theorem successesFor_le_one (K : String) :
    ∀ ks t, successesFor K (runTakes t ks) ≤ 1 := by
  intro ks
  induction ks with
  | nil => intro t; exact Nat.zero_le 1
  | cons k ks ih =>
    intro t
    rw [runTakes_cons]
    cases hl : lookup t k with
    | none =>
      rw [take_none t k hl, successesFor_cons, if_neg (by simp)]
      simpa using ih t
    | some c =>
      rw [take_some t k c hl, successesFor_cons]
      by_cases hkK : k = K
      · subst hkK
        have hz : lookup (eraseKey t k) k = none := by
          rw [lookup_eraseKey, if_pos rfl]
        rw [successesFor_eq_zero k ks (eraseKey t k) hz]
        simp
      · rw [if_neg (by simp [hkK])]
        simpa using ih (eraseKey t k)

theorem closeFrames_pump (paired : Bool) :
    ∀ ins, closeFrames (pumpActions paired ins) = [] := by
  intro ins
  induction ins with
  | nil => rfl
  | cons e rest ih =>
    cases e with
    | deadlineFired => simpa [pumpActions] using ih
    | read r wOk =>
      cases r with
      | err => rfl
      | frame mt p =>
        cases paired with
        | false => rfl
        | true =>
          cases wOk with
          | false => rfl
          | true => simpa [pumpActions, closeFrames] using ih

/-! The claims. -/

/-- C1: the joiner's lookup and removal of a slot code form one atomic
critical section under the table lock (modelled by `take`), performed
before any channel operation; over any sequence of join attempts
serialised by that lock, at most one attempt against a given code `K`
ever observes it present, and an attempt observes the code missing
exactly when the joining branch answers with close 4000 "no such slot"
and closes the connection. -/
theorem c1_take_linearises :
    (∀ t ks K, successesFor K (runTakes t ks) ≤ 1) ∧
    (∀ t k ev, (take t k).1 = none ↔
      (joinGoroutine t k ev).1 =
        [Action.writeClose CloseNoSuchSlot "no such slot", Action.closeConn]) := by
  constructor
  · intro t ks K
    exact successesFor_le_one K ks t
  · intro t k ev
    cases hl : lookup t k with
    | none =>
      rw [take_none t k hl]
      unfold joinGoroutine
      rw [hl]
      simp
    | some c =>
      rw [take_some t k c hl]
      unfold joinGoroutine
      rw [hl]
      cases ev <;> simp [CloseSlotTimedOut, CloseNoSuchSlot]

/-- C2: `freeslot` draws candidates in four escalating bands — at most
3 samples below 10, then 64 below 2^8, then 1024 below 2^16, then 1024
below 2^24 — and returns the first sampled decimal code that is not a
key of the table; it returns `none` (FULL) exactly when every one of
the 2115 attempts collides with an existing key, and a returned code is
never already present. -/
theorem c2_freeslot_spec (m : List String) (g : Nat → Nat) :
    (∀ s, freeslot m g = some s →
      s ∉ m ∧ ∃ k, k < 2115 ∧ s = sampleAt g k ∧ ∀ j, j < k → sampleAt g j ∈ m) ∧
    (freeslot m g = none ↔ ∀ k, k < 2115 → sampleAt g k ∈ m) :=
  ⟨fun s h => freeslot_some_sample m g s h, freeslot_none_iff m g⟩

/-- C2 witness: on the empty table with a stream drawing 7, `freeslot`
returns "7", which the claim theorem shows is not a key of the table. -/
theorem c2_freeslot_spec_witness :
    freeslot [] (fun _ => 7) = some "7" ∧ "7" ∉ ([] : List String) :=
  ⟨by decide, ((c2_freeslot_spec [] (fun _ => 7)).1 "7" (by decide)).1⟩

/-- C3: once paired, the relay loop writes every frame read from one
connection to the other with identical message type and payload, in
FIFO order, stopping at the first read error: forwarding is the
identity on (type, payload) per direction. -/
theorem c3_pump_identity (frames : List (Nat × List Nat)) (w : Bool)
    (rest : List PumpIn) :
    pumpActions true
      (frames.map (fun f => PumpIn.read (ReadResult.frame f.1 f.2) true) ++
        PumpIn.read ReadResult.err w :: rest) =
      frames.map fun f => Action.writeMessage f.1 f.2 := by
  induction frames with
  | nil => simp [pumpActions]
  | cons f fs ih => simp [pumpActions, ih]

/-- C4 as stated is refuted: after pairing, a deadline-expiry event
followed by a read still results in the frame being forwarded, so the
pump does not exit when the 30-minute deadline fires. -/
theorem c4_deadline_counterexample :
    pumpActions true
        [PumpIn.deadlineFired,
         PumpIn.read (ReadResult.frame TextMessage [104, 105]) true] =
      [Action.writeMessage TextMessage [104, 105]] ∧
    pumpActions true
        [PumpIn.deadlineFired,
         PumpIn.read (ReadResult.frame TextMessage [104, 105]) true] ≠ [] := by
  exact ⟨rfl, by decide⟩

/-- C4 amended: the relay loop does not observe the deadline — its
actions on any event trace equal those on the trace with deadline
events removed — and it exits on read errors; the 30-minute deadline
therefore bounds only the pre-pairing rendezvous waits, not a paired
pumping session. -/
theorem c4_pump_deadline_insensitive (paired : Bool) (evs : List PumpIn) :
    pumpActions paired evs =
      pumpActions paired (evs.filter fun e => !isDeadlineEv e) ∧
    ∀ w rest, pumpActions paired (PumpIn.read ReadResult.err w :: rest) = [] := by
  refine ⟨?_, fun w rest => rfl⟩
  induction evs with
  | nil => rfl
  | cons e rest ih =>
    cases e with
    | deadlineFired => simpa [pumpActions, isDeadlineEv] using ih
    | read r wOk =>
      cases r with
      | err => simp [pumpActions, isDeadlineEv]
      | frame mt p =>
        cases paired <;> cases wOk <;>
          simp [pumpActions, isDeadlineEv, List.filter_cons, ih]

/-- C5 evaluated at its failing input: a joiner that has taken slot
"5" and whose deadline fires before the booker's connection arrives
writes the 4001 "timed out" close and closes the connection — but the
`ctx.Done()` arm of its `select` has no `return`, so it then performs a
further channel operation (the unconditional `sc <- conn` of line 175),
visible as the trailing `chanSend`, instead of terminating. -/
theorem c5_join_timeout_still_sends :
    joinGoroutine [("5", 0)] "5" JoinEvent.deadline =
      ([Action.writeClose CloseSlotTimedOut "timed out", Action.closeConn,
        Action.chanSend], []) := by
  rfl

/-- C6 evaluated at its failing input: when the text-frame write of the
assigned code fails, the booking branch returns without any
`delete(slots.m, slotkey)`, so the allocated code is still a key of the
table at goroutine exit. -/
theorem c6_write_fail_leaves_slot :
    bookGoroutine [] (fun _ => 7) 0 false BookEvent.deadline =
      ([Action.writeMessage TextMessage (strBytes "7")], [("7", 0)]) ∧
    lookup (bookGoroutine [] (fun _ => 7) 0 false BookEvent.deadline).2 "7" =
      some 0 := by
  exact ⟨by decide, by decide⟩

/-- C7: when the booking deadline fires before a joiner arrives, the
booker writes the code, then deletes it from the table, writes close
4001 "timed out" and closes; afterwards the code is absent from the
table, so a subsequent join of that code is answered with close 4000
"no such slot". -/
theorem c7_booking_timeout (t : Table) (g : Nat → Nat) (c : Nat) (k : String)
    (hfs : freeslot (keys t) g = some k) (ev : JoinEvent) :
    (bookGoroutine t g c true BookEvent.deadline).1 =
      [Action.writeMessage TextMessage (strBytes k),
       Action.writeClose CloseSlotTimedOut "timed out", Action.closeConn] ∧
    lookup (bookGoroutine t g c true BookEvent.deadline).2 k = none ∧
    (joinGoroutine (bookGoroutine t g c true BookEvent.deadline).2 k ev).1 =
      [Action.writeClose CloseNoSuchSlot "no such slot", Action.closeConn] := by
  have hbook : bookGoroutine t g c true BookEvent.deadline =
      ([Action.writeMessage TextMessage (strBytes k),
        Action.writeClose CloseSlotTimedOut "timed out", Action.closeConn],
       eraseKey ((k, c) :: t) k) := by
    unfold bookGoroutine
    rw [hfs]
    rfl
  have hnone : lookup (eraseKey ((k, c) :: t) k) k = none := by
    rw [lookup_eraseKey, if_pos rfl]
  refine ⟨by rw [hbook], by rw [hbook]; exact hnone, ?_⟩
  rw [hbook]
  unfold joinGoroutine
  rw [hnone]

/-- C7 witness: booking on the empty table with a stream drawing 4,
then timing out, leaves "4" absent and a later join of "4" gets 4000. -/
theorem c7_booking_timeout_witness :
    (bookGoroutine [] (fun _ => 4) 0 true BookEvent.deadline).1 =
      [Action.writeMessage TextMessage (strBytes "4"),
       Action.writeClose CloseSlotTimedOut "timed out", Action.closeConn] ∧
    lookup (bookGoroutine [] (fun _ => 4) 0 true BookEvent.deadline).2 "4" =
      none ∧
    (joinGoroutine (bookGoroutine [] (fun _ => 4) 0 true BookEvent.deadline).2
        "4" JoinEvent.deadline).1 =
      [Action.writeClose CloseNoSuchSlot "no such slot", Action.closeConn] :=
  c7_booking_timeout [] (fun _ => 4) 0 "4" (by decide) JoinEvent.deadline

/-- C8: every close frame the relay produces carries one of the three
application codes with its reason string, each tied to its trigger:
4002 "cannot allocate slots" exactly on allocator exhaustion, 4000
"no such slot" exactly on a join of an absent code, 4001 "timed out"
exactly on deadline expiry before pairing; the pump loop itself never
writes a close frame. -/
theorem c8_close_codes (t : Table) (g : Nat → Nat) (c : Nat) (writeOk : Bool)
    (bev : BookEvent) (k : String) (jev : JoinEvent) (paired : Bool)
    (ins : List PumpIn) :
    closeFrames (bookGoroutine t g c writeOk bev).1 =
      (match freeslot (keys t) g with
       | none => [(CloseNoMoreSlots, "cannot allocate slots")]
       | some _ =>
         if writeOk then
           match bev with
           | BookEvent.deadline => [(CloseSlotTimedOut, "timed out")]
           | BookEvent.joinerArrived => []
         else []) ∧
    closeFrames (joinGoroutine t k jev).1 =
      (match lookup t k with
       | none => [(CloseNoSuchSlot, "no such slot")]
       | some _ =>
         match jev with
         | JoinEvent.deadline => [(CloseSlotTimedOut, "timed out")]
         | JoinEvent.bookerArrived => []) ∧
    closeFrames (pumpActions paired ins) = [] := by
  refine ⟨?_, ?_, closeFrames_pump paired ins⟩
  · cases hfs : freeslot (keys t) g with
    | none =>
      unfold bookGoroutine
      rw [hfs]
      rfl
    | some s =>
      unfold bookGoroutine
      rw [hfs]
      cases writeOk <;> cases bev <;> rfl
  · cases hl : lookup t k with
    | none =>
      unfold joinGoroutine
      rw [hl]
      rfl
    | some c2 =>
      unfold joinGoroutine
      rw [hl]
      cases jev <;> rfl

/-- C9: a frame read while `rconn` is still nil makes the relay loop
return at once: nothing is forwarded and no close frame is written —
the booker's connection is dropped silently on this protocol
violation. -/
theorem c9_prepairing_silent_drop (mt : Nat) (p : List Nat) (w : Bool)
    (rest : List PumpIn) :
    pumpActions false (PumpIn.read (ReadResult.frame mt p) w :: rest) = [] := by
  rfl

/-- C10: in every reachable table, every key is the canonical decimal
string (as produced by `strconv.Itoa`, embedded as `itoa`) of an
integer below 2^24; consequently a join naming a string that is not
`itoa n` for any such `n` — for instance a non-canonical form like
"007" — is always answered with close 4000 "no such slot". -/
theorem c10_keys_canonical (t : Table) (h : Reachable t) :
    (∀ p, p ∈ t → ∃ n, n < 2 ^ 24 ∧ p.1 = itoa n) ∧
    (∀ s ev, (∀ n, n < 2 ^ 24 → itoa n ≠ s) →
      (joinGoroutine t s ev).1 =
        [Action.writeClose CloseNoSuchSlot "no such slot", Action.closeConn]) := by
  refine ⟨reachable_keys_canonical t h, ?_⟩
  intro s ev hs
  cases hl : lookup t s with
  | none =>
    unfold joinGoroutine
    rw [hl]
  | some c =>
    exfalso
    obtain ⟨n, hn, hkey⟩ :=
      reachable_keys_canonical t h (s, c) (lookup_mem t s c hl)
    exact hs n hn hkey.symm

/-- C10 witness: the table holding only slot "7" is reachable (booked
with a stream drawing 7), and joining it with the non-canonical string
"007" is answered with 4000 "no such slot". -/
theorem c10_keys_canonical_witness :
    (joinGoroutine [("7", 37)] "007" JoinEvent.bookerArrived).1 =
      [Action.writeClose CloseNoSuchSlot "no such slot", Action.closeConn] := by
  have hr : Reachable [("7", 37)] :=
    Reachable.step Reachable.init
      (TableStep.book [] (fun _ => 7) 37 "7" (by decide))
  exact (c10_keys_canonical [("7", 37)] hr).2 "007" JoinEvent.bookerArrived
    (fun n _ => itoa_ne_007 n)

end WW
